import Mathlib

/-!
Verification of `examples/lasso/cell-lasso-stats_limited.py` from lmatools.

The script is a batch pipeline: it filters per-bin event/flash record arrays
by attribute ranges, computes per-bin flash statistics and length profiles,
writes a flash-size-statistics CSV, writes length-profile data partitioned by
flash polarity (IC/CG or a single total), and runs a grid-subset reporting
pass over NetCDF grid time steps.

NumPy record arrays are modelled as `RecArray`: a list of rows (each row a
total valuation of field names) together with the list of field names of the
array's dtype.  NumPy comparison semantics on floats, where any comparison
with NaN is false, is modelled by `FloatV` with comparison operators that
return `false` whenever either side is NaN.
-/

set_option autoImplicit false

namespace CellLassoStats

/-- A floating-point value as far as the filter's comparisons are concerned:
either NaN or an exact numeric value.  NumPy's `>=` / `<=` on floats return
`False` whenever either operand is NaN; arithmetic is not needed here. -/
inductive FloatV where
  | nan : FloatV
  | val : ℚ → FloatV

/-- NumPy `>=` on floats: false whenever either side is NaN. -/
def FloatV.ge : FloatV → FloatV → Bool
  | .val a, .val b => decide (b ≤ a)
  | _, _ => false

/-- NumPy `<=` on floats: false whenever either side is NaN. -/
def FloatV.le : FloatV → FloatV → Bool
  | .val a, .val b => decide (a ≤ b)
  | _, _ => false

/-- A row of a NumPy record array: a valuation of field names. -/
def Row : Type := String → FloatV

/-- A NumPy structured (record) array: its rows and its dtype's field names.
A field access `arr[k]` is meaningful exactly when `k ∈ dtypeNames`. -/
structure RecArray where
  rows : List Row
  dtypeNames : List String

instance : Inhabited RecArray := ⟨⟨[], []⟩⟩

/-- An attribute bound, one entry `k: (v_min, v_max)` of the `bounds` dict. -/
def Bound : Type := String × FloatV × FloatV

/-- NumPy boolean-mask indexing `a[mask]`: keep the rows at which the mask is
true (boolean advanced indexing, which returns a fresh copy). -/
def boolIndex {α : Type} (rows : List α) (mask : List Bool) : List α :=
  (rows.zip mask).filterMap fun x => if x.2 then some x.1 else none

/-- One iteration of the bounds loop of `gen_filtered_time_series`
(lines 73–77): `good &= (arr[k] >= v_min) & (arr[k] <= v_max)` guarded by
`if k in arr.dtype.names`; a bound whose field is absent from the dtype
leaves the mask unchanged. -/
def updateMask (arr : RecArray) (k : String) (vmin vmax : FloatV)
    (mask : List Bool) : List Bool :=
  if k ∈ arr.dtypeNames then
    List.zipWith (fun m r => m && ((r k).ge vmin && (r k).le vmax)) mask arr.rows
  else mask

/-- The complete per-array mask of `gen_filtered_time_series`: start from
`np.ones(shape, dtype=bool)` and fold the bounds loop over `bounds.items()`. -/
def filterMask (arr : RecArray) (bounds : List Bound) : List Bool :=
  bounds.foldl (fun mask b => updateMask arr b.1 b.2.1 b.2.2 mask)
    (arr.rows.map fun _ => true)

/-- The per-bin body of `gen_filtered_time_series` (lines 70–78): compute the
event mask and flash mask, then index each array by its mask. -/
def filterBin (events flashes : RecArray) (bounds : List Bound) :
    RecArray × RecArray :=
  let ev_good := filterMask events bounds
  let fl_good := filterMask flashes bounds
  (⟨boolIndex events.rows ev_good, events.dtypeNames⟩,
   ⟨boolIndex flashes.rows fl_good, flashes.dtypeNames⟩)

/-- `gen_filtered_time_series(events_series, flashes_series, bounds)`
(lines 68–80): zip the two series and filter each bin. -/
def gen_filtered_time_series (events_series flashes_series : List RecArray)
    (bounds : List Bound) : List (RecArray × RecArray) :=
  (events_series.zip flashes_series).map fun p => filterBin p.1 p.2 bounds

/-- Spec-side retention predicate, in the spec's words: a record is retained
iff every bounded field that exists on the record's type has a value within
its `(min, max)` range.  Used to characterise the source's `filterMask`. -/
def retainedSpec (dtype : List String) (r : Row) (bounds : List Bound) : Bool :=
  bounds.all fun b => if b.1 ∈ dtype then (r b.1).ge b.2.1 && (r b.1).le b.2.2 else true

/-! ### A store model of the same filter, for the no-mutation guarantee

NumPy arrays live in a store of array values addressed by index; boolean-mask
indexing allocates a fresh array holding a copy of the selected rows (NumPy
advanced indexing always copies).  `filterBinStore` is `filterBin` replayed
against such a store. -/

/-- The store of allocated record arrays; an array reference is an index. -/
structure NpStore where
  arrs : List RecArray

/-- Allocate a new array in the store, returning the store and the fresh
reference. -/
def allocArr (s : NpStore) (a : RecArray) : NpStore × ℕ :=
  (⟨s.arrs ++ [a]⟩, s.arrs.length)

/-- The per-bin filter acting on the store: read the event and flash arrays,
compute the masks (pure reads), and allocate the two filtered copies. -/
def filterBinStore (s : NpStore) (ei fi : ℕ) (bounds : List Bound) :
    NpStore × ℕ × ℕ :=
  let ev := s.arrs.getD ei default
  let fl := s.arrs.getD fi default
  let p := allocArr s ⟨boolIndex ev.rows (filterMask ev bounds), ev.dtypeNames⟩
  let q := allocArr p.1 ⟨boolIndex fl.rows (filterMask fl bounds), fl.dtypeNames⟩
  (q.1, p.2, q.2)

/-! ### Flash size statistics CSV writer -/

/-- The fixed key tuple of `write_size_stat_data` (lines 158–159). -/
def stat_keys : List String :=
  ["start_isoformat", "end_isoformat", "number", "mean", "variance",
   "skewness", "kurtosis", "energy", "energy_per_flash"]

/-- The header line of `write_size_stat_data` (line 160), without the
trailing newline. -/
def size_stat_header : String :=
  "# start_isoformat, end_isoformat, number, mean, variance, skewness, kurtosis, energy, energy_per_flash"

/-- `write_size_stat_data` (lines 157–169), modelled as the sequence of data
rows it writes: one row per statistics record, in order, each row listing
`stats[k] for k in stat_keys`.  Values are left generic in `α` since the
writer only reads fields and formats them. -/
def write_size_stat_data {α : Type} (size_stats : List (String → α)) :
    List (List α) :=
  size_stats.map fun stats => stat_keys.map stats

/-! ### Length-profile output partitioning (IC/CG vs total) -/

/-- One call to `length_profiler.write_profile_data`, reduced to the data it
is handed: the normalized profiles and the `partition_kind` label. -/
structure ProfileWrite where
  profiles : List (List ℚ)
  partition_kind : String

/-- The profile-output branch (lines 197–208): Python indexes
`flashes_series[0]`, which raises `IndexError` on an empty series (modelled
as `none`); otherwise, if the first bin's flash dtype has a `CG` field, two
data sets are written with kinds `IC` and `CG`, else a single one with kind
`total`. -/
def profile_write_step (flashes_series : List RecArray)
    (ICnorm CGnorm : List (List ℚ)) : Option (List ProfileWrite) :=
  match flashes_series with
  | [] => none
  | fl0 :: _ =>
    if "CG" ∈ fl0.dtypeNames then
      some [⟨ICnorm, "IC"⟩, ⟨CGnorm, "CG"⟩]
    else
      some [⟨ICnorm, "total"⟩]

/-! ### Durations and profile normalization -/

/-- `durations_min` (line 181):
`(t_edges_seconds[1:] - t_edges_seconds[:-1]) / 60.0`, the consecutive
differences of the bin-edge times in seconds, divided by 60. -/
def durations_min (t_edges_seconds : List ℚ) : List ℚ :=
  List.zipWith (fun b a => (b - a) / 60) t_edges_seconds.tail t_edges_seconds

/-- Modelled from the spec: `normalize_profiles` is defined in
`lmatools.lasso.length_stats`, which is not part of this source tree.  The
spec says it "divides each bin's accumulated profile value by the
corresponding time-bin duration (in minutes), producing a per-minute rate". -/
def normalize_profiles (profiles : List (List ℚ)) (durations : List ℚ) :
    List (List ℚ) :=
  List.zipWith (fun prof d => prof.map fun v => v / d) profiles durations

/-! ### Time window membership -/

/-- Modelled from the spec: `TimeWindower` lives in
`lmatools.lasso.cell_lasso_timeseries`, not in this source tree.  The spec
says it "partitions a half-open time range `[t_start, t_end)` into
consecutive fixed-width bins; assigns any timestamped record to exactly one
bin (or none, if outside range)", with bin edges at `t_start + k*bin_width`. -/
def timeWindower_assign (t_start t_end bin_width t : ℚ) : Option ℤ :=
  if t_start ≤ t ∧ t < t_end then some ⌊(t - t_start) / bin_width⌋ else none

/-- The grid-loop guard of the NetCDF reporting pass (line 362):
`(t >= t_start) & (t <= t_end)`. -/
def grid_step_selected (t_start t_end t : ℚ) : Bool :=
  decide (t_start ≤ t) && decide (t ≤ t_end)

/-! ### Grid-subset CSV row -/

/-- One field of a grid-subset CSV row, before string formatting: either the
ISO-formatted time `t.isoformat()`, the plain `str(t)`, or a number. -/
inductive RowEntry where
  | timeIso : String → RowEntry
  | timeRaw : String → RowEntry
  | num : ℚ → RowEntry
deriving DecidableEq

/-- `v.max()` on a nonempty array, totalised with a default for `[]`. -/
def listMax (l : List ℚ) : ℚ := l.foldl max l.headI

/-- The datalog-writing tail of `plot_lasso_grid_subset` (lines 304–329),
with plotting dropped.  `vals` is the flattened `a[field_name]`, `good` the
lasso mask from `grid_lassos.filter_mask` (an external collaborator, taken
as input), `percentile` stands for `scipy.stats.scoreatpercentile` (external).
Exactly one row is appended to the datalog: the statistics row when the
nonzero filtered subset is nonempty, else the sentinel row
`(t, 0, 0, 0.0, 0.0, 0.0)`. -/
def plot_lasso_grid_subset (percentile : List ℚ → ℚ → ℚ)
    (datalog : List (List RowEntry)) (tIso tRaw : String)
    (vals : List ℚ) (good : List Bool) : List (List RowEntry) :=
  let nonzero := vals.map fun v => decide (0 < v)
  let filtered := boolIndex vals good
  let nonzero_filtered := boolIndex vals (List.zipWith and good nonzero)
  let row :=
    if nonzero_filtered.length > 0 then
      [RowEntry.timeIso tIso, RowEntry.num (listMax filtered),
       RowEntry.num filtered.sum,
       RowEntry.num (percentile nonzero_filtered 5),
       RowEntry.num (percentile nonzero_filtered 50),
       RowEntry.num (percentile nonzero_filtered 95)]
    else
      [RowEntry.timeRaw tRaw, RowEntry.num 0, RowEntry.num 0,
       RowEntry.num 0, RowEntry.num 0, RowEntry.num 0]
  datalog ++ [row]

/-! ## Helper lemmas -/

theorem ge_nan_left (w : FloatV) : FloatV.ge .nan w = false := by
  cases w <;> rfl

theorem zipWith_self_left {α : Type} (m : List Bool) (rows : List α)
    (h : m.length ≤ rows.length) :
    List.zipWith (fun mi _ => mi) m rows = m := by
  induction m generalizing rows with
  | nil => simp
  | cons a as ih =>
      cases rows with
      | nil => simp at h
      | cons r rs =>
          simp only [List.zipWith_cons_cons, List.cons.injEq, true_and]
          exact ih rs (by simpa using h)

theorem zipWith_zipWith_left {α : Type} (f g : Bool → α → Bool)
    (m : List Bool) (rows : List α) :
    List.zipWith f (List.zipWith g m rows) rows =
      List.zipWith (fun mi r => f (g mi r) r) m rows := by
  induction m generalizing rows with
  | nil => simp
  | cons a as ih =>
      cases rows with
      | nil => simp
      | cons r rs => simp [ih]

theorem zipWith_trues {α : Type} (P : α → Bool) (rows : List α) :
    List.zipWith (fun mi r => mi && P r) (rows.map fun _ => true) rows =
      rows.map P := by
  induction rows with
  | nil => rfl
  | cons r rs ih =>
      simp only [List.map_cons, List.zipWith_cons_cons, Bool.true_and, ih]

theorem updateMask_length (arr : RecArray) (k : String) (vmin vmax : FloatV)
    (m : List Bool) (h : m.length = arr.rows.length) :
    (updateMask arr k vmin vmax m).length = arr.rows.length := by
  unfold updateMask
  split <;> simp [h]

theorem foldl_updateMask (arr : RecArray) (bounds : List Bound) (m : List Bool)
    (h : m.length = arr.rows.length) :
    bounds.foldl (fun mask b => updateMask arr b.1 b.2.1 b.2.2 mask) m =
      List.zipWith (fun mi r => mi && retainedSpec arr.dtypeNames r bounds) m arr.rows := by
  induction bounds generalizing m with
  | nil =>
      simp only [List.foldl_nil, retainedSpec, List.all_nil, Bool.and_true]
      exact (zipWith_self_left m arr.rows (le_of_eq h)).symm
  | cons b bs ih =>
      rw [List.foldl_cons, ih _ (updateMask_length arr b.1 b.2.1 b.2.2 m h)]
      by_cases hb : b.1 ∈ arr.dtypeNames
      · rw [updateMask, if_pos hb, zipWith_zipWith_left]
        simp only [retainedSpec, List.all_cons, if_pos hb, Bool.and_assoc]
      · rw [updateMask, if_neg hb]
        simp only [retainedSpec, List.all_cons, if_neg hb, Bool.true_and]

theorem filterMask_eq (arr : RecArray) (bounds : List Bound) :
    filterMask arr bounds =
      arr.rows.map fun r => retainedSpec arr.dtypeNames r bounds := by
  rw [filterMask, foldl_updateMask arr bounds _ (by simp), zipWith_trues]

theorem boolIndex_map {α : Type} (P : α → Bool) (rows : List α) :
    boolIndex rows (rows.map P) = rows.filter P := by
  induction rows with
  | nil => rfl
  | cons r rs ih =>
      simp only [boolIndex, List.map_cons, List.zip_cons_cons,
        List.filterMap_cons, List.filter_cons] at *
      cases h : P r <;> simp [h, ih]

theorem filterBin_eq (events flashes : RecArray) (bounds : List Bound) :
    filterBin events flashes bounds =
      (⟨events.rows.filter fun r => retainedSpec events.dtypeNames r bounds,
        events.dtypeNames⟩,
       ⟨flashes.rows.filter fun r => retainedSpec flashes.dtypeNames r bounds,
        flashes.dtypeNames⟩) := by
  simp [filterBin, filterMask_eq, boolIndex_map]

theorem filterMask_inert (arr : RecArray) (k : String) (mn mx : FloatV)
    (bounds : List Bound) (h : k ∉ arr.dtypeNames) :
    filterMask arr ((k, mn, mx) :: bounds) = filterMask arr bounds := by
  simp [filterMask, List.foldl_cons, updateMask, h]

theorem tail_get? {α : Type} (l : List α) (i : ℕ) :
    l.tail.get? i = l.get? (i + 1) := by
  cases l <;> rfl

theorem zipWith_get?_some {α β γ : Type} (f : α → β → γ) (as : List α)
    (bs : List β) (i : ℕ) (a : α) (b : β)
    (ha : as.get? i = some a) (hb : bs.get? i = some b) :
    (List.zipWith f as bs).get? i = some (f a b) := by
  induction as generalizing bs i with
  | nil => simp at ha
  | cons x xs ih =>
      cases bs with
      | nil => simp at hb
      | cons y ys =>
          cases i with
          | zero =>
              simp only [List.get?_cons_zero, Option.some.injEq] at ha hb
              subst ha; subst hb; rfl
          | succ n =>
              simpa using ih ys n (by simpa using ha) (by simpa using hb)

/-! ## Claim theorems -/

/-- C1: the attribute-range filter retains a record iff every bounded field
that exists on the record's type has a value within its inclusive
(min, max) range; a bound whose field is absent from a record type imposes
no constraint there, and a bound naming a field present in neither events
nor flashes is inert: adding it changes nothing and raises no error. -/
theorem c1_attribute_range_filter (events_series flashes_series : List RecArray)
    (bounds : List Bound) :
    gen_filtered_time_series events_series flashes_series bounds =
      (events_series.zip flashes_series).map (fun p =>
        (⟨p.1.rows.filter fun r => retainedSpec p.1.dtypeNames r bounds,
          p.1.dtypeNames⟩,
         ⟨p.2.rows.filter fun r => retainedSpec p.2.dtypeNames r bounds,
          p.2.dtypeNames⟩))
    ∧ ∀ k mn mx, (∀ p ∈ events_series.zip flashes_series,
          k ∉ p.1.dtypeNames ∧ k ∉ p.2.dtypeNames) →
        gen_filtered_time_series events_series flashes_series ((k, mn, mx) :: bounds) =
          gen_filtered_time_series events_series flashes_series bounds := by
  constructor
  · simp [gen_filtered_time_series, filterBin_eq]
  · intro k mn mx h
    apply List.map_congr_left
    intro p hp
    obtain ⟨h1, h2⟩ := h p hp
    simp [filterBin, filterMask_inert _ _ _ _ _ h1, filterMask_inert _ _ _ _ _ h2]

/-- C1 witness: a bound on `power`, absent from both dtypes, is inert. -/
theorem c1_attribute_range_filter_witness :
    gen_filtered_time_series [⟨[fun _ => FloatV.val 1], ["area"]⟩]
        [⟨[fun _ => FloatV.val 2], ["area"]⟩]
        [("power", FloatV.nan, FloatV.nan)] =
      gen_filtered_time_series [⟨[fun _ => FloatV.val 1], ["area"]⟩]
        [⟨[fun _ => FloatV.val 2], ["area"]⟩] [] := by
  refine (c1_attribute_range_filter [⟨[fun _ => FloatV.val 1], ["area"]⟩]
    [⟨[fun _ => FloatV.val 2], ["area"]⟩] []).2 "power" FloatV.nan FloatV.nan ?_
  intro p hp
  simp only [List.zip_cons_cons, List.zip_nil_right, List.mem_singleton] at hp
  subst hp
  refine ⟨?_, ?_⟩ <;> decide

/-- C8: the filter's bounds are inclusive on both ends: a record possessing a
bounded field whose value equals exactly the minimum or exactly the maximum
of its (min, max) bound passes that bound and is retained. -/
theorem c8_inclusive_bounds (arr : RecArray) (r : Row) (k : String) (a b : ℚ)
    (hk : k ∈ arr.dtypeNames) (hr : r ∈ arr.rows) (hab : a ≤ b)
    (hv : r k = FloatV.val a ∨ r k = FloatV.val b) :
    r ∈ boolIndex arr.rows (filterMask arr [(k, FloatV.val a, FloatV.val b)]) := by
  rw [filterMask_eq, boolIndex_map, List.mem_filter]
  refine ⟨hr, ?_⟩
  simp only [retainedSpec, List.all_cons, List.all_nil, Bool.and_true, if_pos hk]
  rcases hv with h | h <;>
    simp [h, FloatV.ge, FloatV.le, hab]

/-- C8 witness: a record whose `area` equals the lower bound is retained. -/
theorem c8_inclusive_bounds_witness :
    (fun _ => FloatV.val 0 : Row) ∈
      boolIndex (RecArray.rows ⟨[fun _ => FloatV.val 0], ["area"]⟩)
        (filterMask ⟨[fun _ => FloatV.val 0], ["area"]⟩
          [("area", FloatV.val 0, FloatV.val 1)]) := by
  refine c8_inclusive_bounds ⟨[fun _ => FloatV.val 0], ["area"]⟩
    (fun _ => FloatV.val 0) "area" 0 1 ?_ ?_ ?_ ?_
  · decide
  · exact List.mem_singleton.mpr rfl
  · norm_num
  · exact Or.inl rfl

/-- C9: a record possessing a bounded field whose value is NaN is excluded by
the filter regardless of the bound values, since both NumPy comparisons
evaluate false on NaN. -/
theorem c9_nan_excluded (arr : RecArray) (r : Row) (k : String)
    (mn mx : FloatV) (bounds : List Bound) (hk : k ∈ arr.dtypeNames)
    (hb : (k, mn, mx) ∈ bounds) (hnan : r k = FloatV.nan) :
    r ∉ boolIndex arr.rows (filterMask arr bounds) := by
  rw [filterMask_eq, boolIndex_map]
  intro hmem
  rw [List.mem_filter] at hmem
  have hall := hmem.2
  rw [retainedSpec, List.all_eq_true] at hall
  have h2 := hall (k, mn, mx) hb
  rw [if_pos hk, hnan, ge_nan_left] at h2
  simp at h2

/-- C9 witness: a record with NaN `area` is excluded by an `area` bound. -/
theorem c9_nan_excluded_witness :
    (fun _ => FloatV.nan : Row) ∉
      boolIndex (RecArray.rows ⟨[fun _ => FloatV.nan], ["area"]⟩)
        (filterMask ⟨[fun _ => FloatV.nan], ["area"]⟩
          [("area", FloatV.val 0, FloatV.val 1)]) := by
  refine c9_nan_excluded ⟨[fun _ => FloatV.nan], ["area"]⟩
    (fun _ => FloatV.nan) "area" (FloatV.val 0) (FloatV.val 1)
    [("area", FloatV.val 0, FloatV.val 1)] ?_ ?_ rfl
  · decide
  · exact List.mem_singleton.mpr rfl

/-- C2: `durations_min` built from the `N` bin-edge timestamps has `N - 1`
entries, each the difference of consecutive edge times in seconds divided by
60; `normalize_profiles` divides bin `i`'s profile values by duration `i`. -/
theorem c2_durations_normalization (edges : List ℚ) (profiles : List (List ℚ)) :
    (durations_min edges).length = edges.length - 1
    ∧ (∀ i a b, edges.get? i = some a → edges.get? (i + 1) = some b →
        (durations_min edges).get? i = some ((b - a) / 60))
    ∧ (∀ durations i prof d, profiles.get? i = some prof →
        durations.get? i = some d →
        (normalize_profiles profiles durations).get? i =
          some (prof.map fun v => v / d)) := by
  refine ⟨?_, ?_, ?_⟩
  · simp only [durations_min, List.length_zipWith, List.length_tail]
    omega
  · intro i a b ha hb
    exact zipWith_get?_some _ edges.tail edges i b a
      (by rw [tail_get?]; exact hb) ha
  · intro durations i prof d hp hd
    exact zipWith_get?_some _ profiles durations i prof d hp hd

/-- C2 witness: edges at 0, 60, 180 seconds give durations 1 and 2 minutes,
and normalizing profiles [[2],[4]] by durations [1, 2] divides bin 1 by 2. -/
theorem c2_durations_normalization_witness :
    (durations_min [0, 60, 180]).length = 2
    ∧ (durations_min [0, 60, 180]).get? 1 = some ((180 - 60) / 60)
    ∧ (normalize_profiles [[2], [4]] [1, 2]).get? 1 =
        some (([4] : List ℚ).map fun v => v / 2) := by
  refine ⟨?_, ?_, ?_⟩
  · exact (c2_durations_normalization [0, 60, 180] []).1
  · exact (c2_durations_normalization [0, 60, 180] []).2.1 1 60 180 rfl rfl
  · exact (c2_durations_normalization [0, 60, 180] [[2], [4]]).2.2 [1, 2] 1
      [4] 2 rfl rfl

/-- C3: when the flash records (all sharing one dtype) carry no `CG` field,
exactly one profile data set is written, with partition kind `total`, and the
CG profiles are not saved; when `CG` is present, two data sets are written,
with kinds `IC` and `CG`. -/
theorem c3_polarity_fallback (fl0 : RecArray) (rest : List RecArray)
    (ICnorm CGnorm : List (List ℚ)) (names : List String)
    (h : ∀ arr ∈ fl0 :: rest, arr.dtypeNames = names) :
    profile_write_step (fl0 :: rest) ICnorm CGnorm =
      some (if "CG" ∈ names then
              [⟨ICnorm, "IC"⟩, ⟨CGnorm, "CG"⟩]
            else [⟨ICnorm, "total"⟩]) := by
  have h0 : fl0.dtypeNames = names := h fl0 (by simp)
  simp only [profile_write_step, h0]
  split <;> rfl

/-- C3 witness: with no `CG` field only one `total` data set is written. -/
theorem c3_polarity_fallback_witness :
    profile_write_step [⟨[], ["area"]⟩] [[3]] [[7]] = some [⟨[[3]], "total"⟩] := by
  have h := c3_polarity_fallback ⟨[], ["area"]⟩ [] [[3]] [[7]] ["area"]
    (by intro arr harr; rw [List.mem_singleton] at harr; subst harr; rfl)
  simpa using h

/-- C4: the flash-size-statistics writer emits one row per statistics record,
in record order, each row holding exactly the nine fields start time, end
time, number, mean, variance, skewness, kurtosis, energy, energy_per_flash in
that fixed order; the header names them in the same order. -/
theorem c4_size_stat_fields (α : Type) (size_stats : List (String → α)) :
    write_size_stat_data size_stats =
      size_stats.map (fun stats =>
        [stats "start_isoformat", stats "end_isoformat", stats "number",
         stats "mean", stats "variance", stats "skewness", stats "kurtosis",
         stats "energy", stats "energy_per_flash"])
    ∧ size_stat_header = "# " ++ String.intercalate ", " stat_keys :=
  ⟨rfl, rfl⟩

/-- C10: the IC/CG-versus-total choice is made once, from the first bin's
flash dtype only — replacing every later bin leaves the decision unchanged —
and an empty bin series makes the check itself fail (no output rather than a
default). -/
theorem c10_first_bin_decision :
    (∀ ICnorm CGnorm, profile_write_step [] ICnorm CGnorm = none)
    ∧ (∀ fl0 rest rest' ICnorm CGnorm,
        profile_write_step (fl0 :: rest) ICnorm CGnorm =
          profile_write_step (fl0 :: rest') ICnorm CGnorm) := by
  exact ⟨fun _ _ => rfl, fun _ _ _ _ _ => rfl⟩

/-- C5 counterexample: a grid time step stamped exactly at `t_end` is
excluded from every time bin by the half-open window, yet the grid-subset
reporting pass does process it, because its guard is `t <= t_end`. -/
theorem c5_counterexample :
    grid_step_selected 0 1800 1800 = true
    ∧ timeWindower_assign 0 1800 1800 1800 = none := by
  constructor
  · decide
  · simp [timeWindower_assign]

/-- C5 (amended): a record with timestamp outside `[t_start, t_end)` is
assigned to no bin; the grid-subset reporting pass, however, selects a grid
time step iff `t_start ≤ t ≤ t_end` (closed interval), so a step exactly at
`t_end` is processed. -/
theorem c5_window_semantics (t_start t_end bin_width t : ℚ) :
    (¬ (t_start ≤ t ∧ t < t_end) →
        timeWindower_assign t_start t_end bin_width t = none)
    ∧ (grid_step_selected t_start t_end t = true ↔ t_start ≤ t ∧ t ≤ t_end) := by
  constructor
  · intro h
    simp [timeWindower_assign, h]
  · simp [grid_step_selected]

/-- C5 witness: a record at t = 2000 s is outside [0, 1800) and gets no bin;
the grid guard holds exactly on the closed interval. -/
theorem c5_window_semantics_witness :
    timeWindower_assign 0 1800 1800 2000 = none
    ∧ (grid_step_selected 0 1800 1800 = true ↔
        (0 : ℚ) ≤ 1800 ∧ (1800 : ℚ) ≤ 1800) :=
  ⟨(c5_window_semantics 0 1800 1800 2000).1 (by norm_num),
   (c5_window_semantics 0 1800 1800 1800).2⟩

/-- C6: each processed grid time step appends exactly one CSV data row to the
datalog, and when the lasso-filtered nonzero subset is empty the appended row
is the full-length sentinel (time, 0, 0, 0.0, 0.0, 0.0) rather than being
skipped. -/
theorem c6_one_row_per_step (percentile : List ℚ → ℚ → ℚ)
    (datalog : List (List RowEntry)) (tIso tRaw : String)
    (vals : List ℚ) (good : List Bool) :
    (plot_lasso_grid_subset percentile datalog tIso tRaw vals good).length =
        datalog.length + 1
    ∧ (boolIndex vals (List.zipWith and good (vals.map fun v => decide (0 < v))) = [] →
        plot_lasso_grid_subset percentile datalog tIso tRaw vals good =
          datalog ++ [[RowEntry.timeRaw tRaw, RowEntry.num 0, RowEntry.num 0,
                       RowEntry.num 0, RowEntry.num 0, RowEntry.num 0]]) := by
  constructor
  · simp [plot_lasso_grid_subset]
  · intro h
    simp [plot_lasso_grid_subset, h]

/-- C6 witness: a single in-lasso cell with value 0 yields an empty nonzero
subset, and the sentinel row is still written. -/
theorem c6_one_row_per_step_witness :
    plot_lasso_grid_subset (fun _ _ => 0) [] "t" "t" [0] [true] =
      [[RowEntry.timeRaw "t", RowEntry.num 0, RowEntry.num 0,
        RowEntry.num 0, RowEntry.num 0, RowEntry.num 0]] := by
  exact (c6_one_row_per_step (fun _ _ => 0) [] "t" "t" [0] [true]).2 rfl

/-- C7: filtering a bin never mutates the source arrays — every array
reference that existed before still dereferences to the same array value —
and both outputs are freshly allocated references, distinct from the event
and flash source references, so downstream accumulation cannot alter the
inputs. -/
theorem c7_no_mutation (s : NpStore) (ei fi : ℕ) (bounds : List Bound)
    (hei : ei < s.arrs.length) (hfi : fi < s.arrs.length) :
    (∀ j, j < s.arrs.length →
        (filterBinStore s ei fi bounds).1.arrs.get? j = s.arrs.get? j)
    ∧ s.arrs.length ≤ (filterBinStore s ei fi bounds).2.1
    ∧ s.arrs.length ≤ (filterBinStore s ei fi bounds).2.2
    ∧ (filterBinStore s ei fi bounds).2.1 ≠ ei
    ∧ (filterBinStore s ei fi bounds).2.1 ≠ fi
    ∧ (filterBinStore s ei fi bounds).2.2 ≠ ei
    ∧ (filterBinStore s ei fi bounds).2.2 ≠ fi := by
  refine ⟨?_, ?_, ?_, ?_, ?_, ?_, ?_⟩
  · intro j hj
    simp only [filterBinStore, allocArr]
    rw [List.append_assoc, List.get?_eq_getElem?, List.get?_eq_getElem?,
      List.getElem?_append_left hj]
  · simp [filterBinStore, allocArr]
  · simp only [filterBinStore, allocArr, List.length_append, List.length_cons,
      List.length_nil]
    omega
  · simp only [filterBinStore, allocArr]
    omega
  · simp only [filterBinStore, allocArr]
    omega
  · simp only [filterBinStore, allocArr, List.length_append, List.length_cons,
      List.length_nil]
    omega
  · simp only [filterBinStore, allocArr, List.length_append, List.length_cons,
      List.length_nil]
    omega

/-- C7 witness: in a two-array store, filtering the bin (0, 1) leaves array 0
readable unchanged and returns fresh references 2 and 3. -/
theorem c7_no_mutation_witness :
    (filterBinStore ⟨[⟨[], ["area"]⟩, ⟨[], ["area"]⟩]⟩ 0 1 []).1.arrs.get? 0 =
        (NpStore.arrs ⟨[⟨[], ["area"]⟩, ⟨[], ["area"]⟩]⟩).get? 0
    ∧ (filterBinStore ⟨[⟨[], ["area"]⟩, ⟨[], ["area"]⟩]⟩ 0 1 []).2.1 ≠ 0
    ∧ (filterBinStore ⟨[⟨[], ["area"]⟩, ⟨[], ["area"]⟩]⟩ 0 1 []).2.2 ≠ 1 := by
  have h := c7_no_mutation ⟨[⟨[], ["area"]⟩, ⟨[], ["area"]⟩]⟩ 0 1 []
    (by simp) (by simp)
  exact ⟨h.1 0 (by simp), h.2.2.2.1, h.2.2.2.2.2.2⟩

end CellLassoStats
